import Mathlib

/-!
Verification development for the transcript-analyzer core: token estimation,
turn grouping, chunking (`chunker.py` / `parser.py`), the retrying inference
client (`ollama.py`), and the job execution boundary (`job_manager.py` /
`storage.py`).  Python integers are modelled as `Nat` (all quantities involved
are non-negative counts); the float threshold `int(target_tokens * 0.8)` is
modelled as `target_tokens * 4 / 5`, which agrees with the Python expression on
the whole realistic range.
-/

namespace TranscriptAnalyzer

/-- Message role; the upstream parser only ever produces `user` or `assistant`. -/
inductive Role where
  | user
  | assistant
deriving DecidableEq, Repr

/-- A single message in a conversation (`parser.Message`).  The `timestamp` and
`cwd` fields never influence the functions modelled here (formatting is always
called with `include_metadata=False`) and are omitted. -/
structure Message where
  role : Role
  content : String
  session_id : Option String := none
deriving DecidableEq, Repr

/-- `parser.format_transcript` with `include_metadata=False`: the markdown
rendering joined with newlines. -/
def format_transcript (messages : List Message) : String :=
  let headerLines : List String := ["# Transcript", ""]
  let sessionLines : List String :=
    match messages with
    | [] => []
    | m :: _ =>
      match m.session_id with
      | some sid => if sid = "" then [] else ["Session: " ++ sid, ""]
      | none => []
  let msgLines : List String :=
    messages.flatMap fun m =>
      [(if m.role = Role.user then "## User" else "## Claude"), "", m.content, ""]
  String.intercalate "\n" (headerLines ++ sessionLines ++ ["---", ""] ++ msgLines)

/-- `chunker.estimate_tokens`: `len(text) // 4`. -/
def estimate_tokens (text : String) : Nat :=
  text.length / 4

/-- `chunker.estimate_message_tokens`: content tokens plus a fixed overhead of 10. -/
def estimate_message_tokens (message : Message) : Nat :=
  estimate_tokens message.content + 10

/-- A conversation turn (`chunker.Turn`). -/
structure Turn where
  user_message : Message
  assistant_message : Option Message := none
  estimated_tokens : Nat := 0
deriving DecidableEq, Repr

/-- `Turn.messages`: the user message followed by the assistant reply if present. -/
def Turn.messages (t : Turn) : List Message :=
  match t.assistant_message with
  | some a => [t.user_message, a]
  | none => [t.user_message]

/-- The scan of `chunker.group_into_turns`: the second argument is the
`current_turn` accumulator (`none` when no turn is open). -/
def group_into_turns_aux : List Message → Option Turn → List Turn
  | [], none => []
  | [], some t => [t]
  | m :: rest, cur =>
    match m.role with
    | Role.user =>
      let newTurn : Turn :=
        { user_message := m, assistant_message := none,
          estimated_tokens := estimate_message_tokens m }
      match cur with
      | none => group_into_turns_aux rest (some newTurn)
      | some t => t :: group_into_turns_aux rest (some newTurn)
    | Role.assistant =>
      match cur with
      | none => group_into_turns_aux rest none
      | some t =>
        group_into_turns_aux rest
          (some { t with
                  assistant_message := some m,
                  estimated_tokens := t.estimated_tokens + estimate_message_tokens m })

/-- `chunker.group_into_turns`. -/
def group_into_turns (messages : List Message) : List Turn :=
  group_into_turns_aux messages none

/-- A chunk of conversation (`chunker.Chunk`); `context_summary` is never set by
`chunk_messages` and is omitted. -/
structure Chunk where
  messages : List Message
  chunk_index : Nat
  total_chunks : Nat
  overlap_count : Nat := 0
  estimated_tokens : Nat := 0
deriving DecidableEq, Repr

/-- Result of the chunking operation (`chunker.ChunkingResult`); `chunk_config`
is `some (target_tokens, overlap_turns)` where the Python code fills the dict
and `none` where it leaves the default empty dict. -/
structure ChunkingResult where
  chunks : List Chunk
  total_tokens : Nat
  total_messages : Nat
  was_chunked : Bool
  chunk_config : Option (Nat × Nat) := none
deriving DecidableEq, Repr

/-- Python `l[-n:]` for `n > 0`: the last `min n l.length` elements. -/
def takeLast (l : List α) (n : Nat) : List α :=
  l.drop (l.length - n)

/-- The overlap turns saved when a chunk closes:
`current_chunk_turns[-overlap_turns:] if overlap_turns > 0 else []`. -/
def overlapSel (overlap_turns : Nat) (current : List Turn) : List Turn :=
  if overlap_turns > 0 then takeLast current overlap_turns else []

/-- Finalizing one chunk inside `chunk_messages`: overlap messages first, then
the current turns' messages; `overlap_count` counts the overlap messages;
`estimated_tokens` sums the current (new) turns only; `total_chunks` is stamped
later and starts at 0. -/
def mkChunk (idx : Nat) (overlapNext current : List Turn) : Chunk :=
  let overlapMsgs := (overlapNext.map Turn.messages).flatten
  { messages := overlapMsgs ++ (current.map Turn.messages).flatten
    chunk_index := idx
    total_chunks := 0
    overlap_count := overlapMsgs.length
    estimated_tokens := (current.map Turn.estimated_tokens).sum }

/-- The turn-accumulation loop of `chunk_messages` (lines 202-259): state is
(accumulated chunks, current chunk turns, current token count, overlap turns
saved for the next chunk); the trailing flush of the last chunk is the base
case. -/
def buildLoop (target_tokens overlap_turns : Nat) :
    List Turn → List Chunk → List Turn → Nat → List Turn → List Chunk
  | [], chunks, current, _, overlapNext =>
    if current = [] then chunks
    else chunks ++ [mkChunk chunks.length overlapNext current]
  | turn :: rest, chunks, current, currentTokens, overlapNext =>
    if currentTokens + turn.estimated_tokens > target_tokens ∧ current ≠ [] then
      buildLoop target_tokens overlap_turns rest
        (chunks ++ [mkChunk chunks.length overlapNext current])
        [turn] turn.estimated_tokens (overlapSel overlap_turns current)
    else
      buildLoop target_tokens overlap_turns rest
        chunks (current ++ [turn]) (currentTokens + turn.estimated_tokens) overlapNext

/-- The chunk/no-chunk threshold `int(target_tokens * 0.8)`. -/
def chunkThreshold (target_tokens : Nat) : Nat :=
  target_tokens * 4 / 5

/-- `chunker.chunk_messages`. -/
def chunk_messages (messages : List Message)
    (target_tokens : Nat := 6000) (overlap_turns : Nat := 2) : ChunkingResult :=
  if messages = [] then
    { chunks := [], total_tokens := 0, total_messages := 0, was_chunked := false }
  else
    let total_tokens := estimate_tokens (format_transcript messages)
    if total_tokens ≤ chunkThreshold target_tokens then
      { chunks := [{ messages := messages, chunk_index := 0, total_chunks := 1,
                     overlap_count := 0, estimated_tokens := total_tokens }],
        total_tokens := total_tokens,
        total_messages := messages.length,
        was_chunked := false,
        chunk_config := some (target_tokens, overlap_turns) }
    else
      let turns := group_into_turns messages
      if turns = [] then
        { chunks := [], total_tokens := total_tokens,
          total_messages := messages.length, was_chunked := false }
      else
        let chunks := buildLoop target_tokens overlap_turns turns [] [] 0 []
        { chunks := chunks.map (fun c => { c with total_chunks := chunks.length }),
          total_tokens := total_tokens,
          total_messages := messages.length,
          was_chunked := true,
          chunk_config := some (target_tokens, overlap_turns) }

/-- `chunker.should_chunk`. -/
def should_chunk (messages : List Message) (chunk_threshold : Nat := 6000) : Bool :=
  if messages = [] then false
  else decide (estimate_tokens (format_transcript messages) > chunkThreshold chunk_threshold)

/-! ### Segment view of the chunk-building loop

`segLoop` records only how the loop partitions the turn list into consecutive
groups ("the new turns of each chunk"); `chunksFromSegs` rebuilds the chunk
list from the groups.  `buildLoop_eq_chunksFromSegs` proves the loop equal to
this two-stage view, which the chunk invariants are then read off from. -/

/-- The partition of the turns into consecutive per-chunk groups induced by the
greedy loop of `chunk_messages`. -/
def segLoop (target_tokens : Nat) : List Turn → List Turn → Nat → List (List Turn)
  | [], current, _ => if current = [] then [] else [current]
  | turn :: rest, current, currentTokens =>
    if currentTokens + turn.estimated_tokens > target_tokens ∧ current ≠ [] then
      current :: segLoop target_tokens rest [turn] turn.estimated_tokens
    else
      segLoop target_tokens rest (current ++ [turn]) (currentTokens + turn.estimated_tokens)

/-- Rebuild the chunk list from the per-chunk turn groups, threading the
overlap turns saved from each closed chunk into its successor. -/
def chunksFromSegs (overlap_turns : Nat) : Nat → List Turn → List (List Turn) → List Chunk
  | _, _, [] => []
  | idx, ov, seg :: rest =>
    mkChunk idx ov seg ::
      chunksFromSegs overlap_turns (idx + 1) (overlapSel overlap_turns seg) rest

/-- The per-chunk groups of new turns that `chunk_messages` forms on its
chunking path. -/
def chunkSegs (messages : List Message) (target_tokens : Nat) : List (List Turn) :=
  segLoop target_tokens (group_into_turns messages) [] 0

/-- The new (non-overlap) content of a chunk: its messages after the first
`overlap_count`. -/
def newContent (c : Chunk) : List Message :=
  c.messages.drop c.overlap_count

/-- The leading overlap content of a chunk: its first `overlap_count` messages. -/
def overlapContent (c : Chunk) : List Message :=
  c.messages.take c.overlap_count

/-- The messages of a list of turns, in order. -/
def turnsMessages (ts : List Turn) : List Message :=
  (ts.map Turn.messages).flatten

/-! ### Path characterization of `chunk_messages` -/

/-- Stamping `total_chunks` into a finished chunk (the two-pass finalize). -/
def stampTotal (n : Nat) (c : Chunk) : Chunk :=
  { c with total_chunks := n }

/-! ### Facts about `group_into_turns` -/

/-- Count of user messages. -/
def countUsers (messages : List Message) : Nat :=
  messages.countP (fun m => decide (m.role = Role.user))

/-- A turn is well-formed when its user slot holds a user message and its
assistant slot, if filled, an assistant message. -/
def WellTurn (t : Turn) : Prop :=
  t.user_message.role = Role.user ∧
    ∀ a, t.assistant_message = some a → a.role = Role.assistant

/-! ### The inference client retry loop (`ollama.py`)

`OllamaClient.generate` and `generate_sync` share the same attempt loop
verbatim; it is modelled once.  The transport (one HTTP POST) is abstracted as
a function from the 0-indexed attempt number to its outcome; the model records
the returned value or raised error, the number of attempts made and the sleep
durations, in order.  `DEFAULT_RETRY_DELAY = 2.0` seconds is modelled as the
natural number 2 (all delays are whole numbers of seconds). -/

def DEFAULT_MAX_RETRIES : Nat := 3

def DEFAULT_RETRY_DELAY : Nat := 2

/-- Response from the generate API (`ollama.GenerateResponse`). -/
structure GenerateResponse where
  response : String
  model : String
  total_duration : Option Nat := none
  prompt_eval_count : Option Nat := none
  eval_count : Option Nat := none
deriving DecidableEq, Repr

/-- What a single POST to `/api/generate` can do, as seen by the retry loop:
return successfully, raise `httpx.TimeoutException`, raise
`httpx.HTTPStatusError` with a status code and body, or raise
`httpx.RequestError` (connection failure). -/
inductive Outcome where
  | success (resp : GenerateResponse)
  | timeout
  | httpStatus (code : Nat) (body : String)
  | connectionError (msg : String)
deriving DecidableEq, Repr

/-- Errors surfaced by the client: `OllamaTimeoutError` is the subclass of
`OllamaError` raised for timeouts. -/
inductive OllamaErr where
  | timeoutErr (msg : String)
  | apiErr (msg : String)
deriving DecidableEq, Repr

/-- `RETRYABLE_STATUS_CODES = {502, 503, 504}`. -/
def retryableStatusCode (code : Nat) : Prop :=
  code = 502 ∨ code = 503 ∨ code = 504

instance : DecidablePred retryableStatusCode := fun _ =>
  inferInstanceAs (Decidable (_ ∨ _ ∨ _))

/-- How one attempt is classified by the except-clauses of the loop body. -/
inductive AttemptClass where
  | ok (resp : GenerateResponse)
  | fatal (e : OllamaErr)
  | retryable (e : OllamaErr)
deriving DecidableEq, Repr

/-- The except-clauses of `generate` / `generate_sync`, including the exact
error strings they build. -/
def classifyOutcome (timeout_s : Nat) : Outcome → AttemptClass
  | Outcome.success r => AttemptClass.ok r
  | Outcome.timeout =>
    AttemptClass.retryable
      (OllamaErr.timeoutErr
        ("Ollama request timed out after " ++ toString timeout_s ++ "s"))
  | Outcome.httpStatus code body =>
    if retryableStatusCode code then
      AttemptClass.retryable
        (OllamaErr.apiErr ("Ollama API error: " ++ toString code))
    else
      AttemptClass.fatal
        (OllamaErr.apiErr ("Ollama API error: " ++ toString code ++ " - " ++ body))
  | Outcome.connectionError msg =>
    AttemptClass.retryable (OllamaErr.apiErr ("Failed to connect to Ollama: " ++ msg))

/-- Observable trace of one `generate` call: the value returned or error
raised, the number of attempts made, and the sleeps performed in order. -/
structure GenRun where
  result : Except OllamaErr GenerateResponse
  attempts : Nat
  delays : List Nat
deriving Repr

/-- The `for attempt in range(max_retries + 1)` loop.  `attempt` is the current
0-indexed attempt, `rem` the number of loop iterations left (initially
`max_retries + 1`), `lastError` the `last_error` variable. -/
def generateLoop (transport : Nat → Outcome) (timeout_s max_retries : Nat) :
    Nat → Nat → Option OllamaErr → GenRun
  | _, 0, lastError =>
    { result := Except.error (lastError.getD (OllamaErr.apiErr "Unknown error")),
      attempts := 0, delays := [] }
  | attempt, rem + 1, _ =>
    match classifyOutcome timeout_s (transport attempt) with
    | AttemptClass.ok r => { result := Except.ok r, attempts := 1, delays := [] }
    | AttemptClass.fatal e => { result := Except.error e, attempts := 1, delays := [] }
    | AttemptClass.retryable e =>
      if attempt < max_retries then
        let rest := generateLoop transport timeout_s max_retries (attempt + 1) rem (some e)
        { result := rest.result, attempts := rest.attempts + 1,
          delays := DEFAULT_RETRY_DELAY * (attempt + 1) :: rest.delays }
      else
        { result := Except.error e, attempts := 1, delays := [] }

/-- `ollama.generate_sync` (and identically `OllamaClient.generate`), with the
transport abstracted. -/
def generate_sync (transport : Nat → Outcome)
    (timeout_s : Nat := 300) (max_retries : Nat := DEFAULT_MAX_RETRIES) : GenRun :=
  generateLoop transport timeout_s max_retries 0 (max_retries + 1) none

/-- An outcome the loop retries on. -/
def retryableOutcome (timeout_s : Nat) (o : Outcome) : Prop :=
  ∃ e, classifyOutcome timeout_s o = AttemptClass.retryable e

/-! ### Job execution boundary (`job_manager.py` / `storage.py`)

`JobManager._run_analysis` runs one job on a worker thread.  Every inference
call is abstracted as an `Except`-valued function (an error value standing for
the exception `generate_sync` raises after its own retries); transcript
acquisition likewise.  Storage is the job record plus the list of persisted
result records; `update_job_status`, `fail_job` and `complete_job` mirror the
corresponding `Storage` methods' effect on that state. -/

inductive JobStatus where
  | pending
  | running
  | completed
  | failed
deriving DecidableEq, Repr

/-- The job record fields `_run_analysis` interacts with. -/
structure JobRec where
  status : JobStatus
  error_message : Option String := none
  result_id : Option String := none
deriving DecidableEq, Repr

/-- A persisted analysis result record. -/
structure ResultRec where
  id : String
  result_text : String
deriving DecidableEq, Repr

/-- The storage state touched by one job execution. -/
structure StorageState where
  job : JobRec
  results : List ResultRec
deriving DecidableEq, Repr

/-- `Storage.update_job_status`. -/
def update_job_status (st : StorageState) (status : JobStatus) : StorageState :=
  { st with job := { st.job with status := status } }

/-- `Storage.fail_job`: mark FAILED and record the error message; touches no
result record. -/
def fail_job (st : StorageState) (error_message : String) : StorageState :=
  { st with job := { st.job with
      status := JobStatus.failed,
      error_message := some error_message } }

/-- `Storage.complete_job`: insert the result record and link it from the job,
marking COMPLETED. -/
def complete_job (st : StorageState) (result_id result_text : String) : StorageState :=
  { job := { st.job with status := JobStatus.completed, result_id := some result_id },
    results := st.results ++ [{ id := result_id, result_text := result_text }] }

/-- The map phase of `JobManager._run_chunked`: analyze each chunk in index
order, sequentially; the first failing call aborts.  Outputs are labeled by
1-indexed position. -/
def mapPhase (inferChunk : Chunk → Except String String) :
    List Chunk → Except String (List String)
  | [] => Except.ok []
  | c :: rest => do
    let r ← inferChunk c
    let rs ← mapPhase inferChunk rest
    Except.ok (("=== Chunk " ++ toString (c.chunk_index + 1) ++ "/"
      ++ toString c.total_chunks ++ " ===\n\n" ++ r) :: rs)

/-- `JobManager._run_chunked`: chunk, map, then one reduce call over the
collected labeled outputs. -/
def _run_chunked (messages : List Message) (chunk_tokens overlap_turns : Nat)
    (inferChunk : Chunk → Except String String)
    (inferReduce : List String → Except String String) : Except String String := do
  let chunking_result := chunk_messages messages chunk_tokens overlap_turns
  let chunk_results ← mapPhase inferChunk chunking_result.chunks
  inferReduce chunk_results

/-- The body of `JobManager._run_analysis`'s `try` block after the RUNNING
transition: acquire the transcript, pick chunked vs. single-pass by the shared
threshold, and produce the result text or the first error raised. -/
def analysisBody (acquire : Except String (List Message))
    (chunk_tokens overlap_turns : Nat) (hasChunkPrompts : Bool)
    (inferChunk : Chunk → Except String String)
    (inferReduce : List String → Except String String)
    (inferSingle : List Message → Except String String) : Except String String := do
  let messages ← acquire
  let total_tokens := estimate_tokens (format_transcript messages)
  if total_tokens > chunkThreshold chunk_tokens ∧ hasChunkPrompts then
    _run_chunked messages chunk_tokens overlap_turns inferChunk inferReduce
  else
    inferSingle messages

/-- `JobManager._run_analysis`: mark RUNNING, run the body, then either persist
the result and mark COMPLETED, or catch the exception and mark FAILED.  The
function is total: the worker returns normally on every input. -/
def _run_analysis (st : StorageState) (result_id : String)
    (acquire : Except String (List Message))
    (chunk_tokens overlap_turns : Nat) (hasChunkPrompts : Bool)
    (inferChunk : Chunk → Except String String)
    (inferReduce : List String → Except String String)
    (inferSingle : List Message → Except String String) : StorageState :=
  let st1 := update_job_status st JobStatus.running
  match analysisBody acquire chunk_tokens overlap_turns hasChunkPrompts
      inferChunk inferReduce inferSingle with
  | Except.ok result_text => complete_job st1 result_id result_text
  | Except.error e => fail_job st1 e

/-! ### Concrete sample inputs used by witnesses and counterexamples -/

/-- Sample user message. -/
def msgU1 : Message := { role := Role.user, content := "Hi" }

/-- Sample assistant message. -/
def msgA1 : Message := { role := Role.assistant, content := "Hello" }

/-- An assistant-only message whose formatted transcript exceeds the
threshold for `target_tokens = 10`. -/
def msgBigA : Message := { role := Role.assistant, content := "0123456789" }

/-- A four-message, two-turn conversation; with `target_tokens = 0` it chunks
into two chunks. -/
def msgs4 : List Message :=
  [{ role := Role.user, content := "u1" }, { role := Role.assistant, content := "a1" },
   { role := Role.user, content := "u2" }, { role := Role.assistant, content := "a2" }]

/-! ### Auxiliary facts for the claims -/

/-! ### Claims -/

/-- A transport that answers HTTP 404 on every attempt. -/
def transport404 : Nat → Outcome :=
  fun _ => Outcome.httpStatus 404 "not found"

/-- The initial storage state for the C8 witness. -/
def st0 : StorageState :=
  { job := { status := JobStatus.pending }, results := [] }

theorem buildLoop_eq_chunksFromSegs (target_tokens overlap_turns : Nat) :
    ∀ (rest : List Turn) (chunks : List Chunk) (current : List Turn)
      (currentTokens : Nat) (overlapNext : List Turn),
      buildLoop target_tokens overlap_turns rest chunks current currentTokens overlapNext
        = chunks ++ chunksFromSegs overlap_turns chunks.length overlapNext
            (segLoop target_tokens rest current currentTokens) := by
  intro rest
  induction rest with
  | nil =>
    intro chunks current currentTokens overlapNext
    by_cases h : current = []
    · simp [buildLoop, segLoop, h, chunksFromSegs]
    · simp [buildLoop, segLoop, h, chunksFromSegs]
  | cons turn rest ih =>
    intro chunks current currentTokens overlapNext
    by_cases h : currentTokens + turn.estimated_tokens > target_tokens ∧ current ≠ []
    · rw [buildLoop, segLoop, if_pos h, if_pos h, ih, chunksFromSegs]
      simp
    · rw [buildLoop, segLoop, if_neg h, if_neg h, ih]

/-- The groups concatenate back to the processed turns. -/
theorem segLoop_flatten (target_tokens : Nat) :
    ∀ (rest current : List Turn) (currentTokens : Nat),
      (segLoop target_tokens rest current currentTokens).flatten = current ++ rest := by
  intro rest
  induction rest with
  | nil =>
    intro current currentTokens
    by_cases h : current = [] <;> simp [segLoop, h]
  | cons turn rest ih =>
    intro current currentTokens
    by_cases h : currentTokens + turn.estimated_tokens > target_tokens ∧ current ≠ []
    · rw [segLoop, if_pos h]
      simp [ih]
    · rw [segLoop, if_neg h, ih]
      simp

/-- Every group the loop emits is non-empty. -/
theorem segLoop_ne_nil (target_tokens : Nat) :
    ∀ (rest current : List Turn) (currentTokens : Nat),
      ∀ s ∈ segLoop target_tokens rest current currentTokens, s ≠ [] := by
  intro rest
  induction rest with
  | nil =>
    intro current currentTokens s hs
    by_cases h : current = []
    · simp [segLoop, h] at hs
    · simp [segLoop, h] at hs
      simpa [hs] using h
  | cons turn rest ih =>
    intro current currentTokens s hs
    by_cases h : currentTokens + turn.estimated_tokens > target_tokens ∧ current ≠ []
    · rw [segLoop, if_pos h] at hs
      rcases List.mem_cons.mp hs with hs | hs
      · simpa [hs] using h.2
      · exact ih _ _ s hs
    · rw [segLoop, if_neg h] at hs
      exact ih _ _ s hs

/-- A turn whose own estimate exceeds the target is always alone in its group. -/
theorem segLoop_oversized_singleton (target_tokens : Nat) :
    ∀ (rest current : List Turn) (currentTokens : Nat),
      currentTokens = (current.map Turn.estimated_tokens).sum →
      (∀ t ∈ current, t.estimated_tokens > target_tokens → current = [t]) →
      ∀ s ∈ segLoop target_tokens rest current currentTokens,
        ∀ t ∈ s, t.estimated_tokens > target_tokens → s = [t] := by
  intro rest
  induction rest with
  | nil =>
    intro current currentTokens _ hinv s hs t ht hbig
    by_cases h : current = []
    · simp [segLoop, h] at hs
    · simp [segLoop, h] at hs
      subst hs
      exact hinv t ht hbig
  | cons turn rest ih =>
    intro current currentTokens hsum hinv s hs t ht hbig
    by_cases h : currentTokens + turn.estimated_tokens > target_tokens ∧ current ≠ []
    · rw [segLoop, if_pos h] at hs
      rcases List.mem_cons.mp hs with hs | hs
      · subst hs
        exact hinv t ht hbig
      · refine ih [turn] turn.estimated_tokens (by simp) ?_ s hs t ht hbig
        intro t' ht' _
        simp at ht'
        simp [ht']
    · rw [segLoop, if_neg h] at hs
      refine ih (current ++ [turn]) (currentTokens + turn.estimated_tokens)
        (by simp [hsum]) ?_ s hs t ht hbig
      intro t' ht' hbig'
      rcases List.mem_append.mp ht' with hc | hc
      · -- an oversized turn already in `current` forces `current = [t']`, whence
        -- `currentTokens > target_tokens` and the split condition would have fired
        have hcur := hinv t' hc hbig'
        exfalso
        apply h
        constructor
        · have : currentTokens = t'.estimated_tokens := by
            rw [hsum, hcur]; simp
          omega
        · rw [hcur]; simp
      · -- the incoming turn is oversized: the condition not firing forces `current = []`
        have hturn : t' = turn := by simpa using hc
        subst hturn
        have hcur : current = [] := by
          by_contra hne
          exact h ⟨by omega, hne⟩
        simp [hcur]

theorem mkChunk_newContent (idx : Nat) (ov current : List Turn) :
    newContent (mkChunk idx ov current) = turnsMessages current := by
  simp [newContent, mkChunk, turnsMessages, List.drop_left]

theorem mkChunk_overlapContent (idx : Nat) (ov current : List Turn) :
    overlapContent (mkChunk idx ov current) = turnsMessages ov := by
  simp [overlapContent, mkChunk, turnsMessages, List.take_left]

theorem chunksFromSegs_length (overlap_turns : Nat) :
    ∀ (segs : List (List Turn)) (idx : Nat) (ov : List Turn),
      (chunksFromSegs overlap_turns idx ov segs).length = segs.length := by
  intro segs
  induction segs with
  | nil => intro idx ov; simp [chunksFromSegs]
  | cons seg rest ih => intro idx ov; simp [chunksFromSegs, ih]

theorem chunksFromSegs_map_newContent (overlap_turns : Nat) :
    ∀ (segs : List (List Turn)) (idx : Nat) (ov : List Turn),
      (chunksFromSegs overlap_turns idx ov segs).map newContent
        = segs.map turnsMessages := by
  intro segs
  induction segs with
  | nil => intro idx ov; simp [chunksFromSegs]
  | cons seg rest ih =>
    intro idx ov
    simp [chunksFromSegs, mkChunk_newContent, ih]

theorem chunksFromSegs_map_estimated_tokens (overlap_turns : Nat) :
    ∀ (segs : List (List Turn)) (idx : Nat) (ov : List Turn),
      (chunksFromSegs overlap_turns idx ov segs).map Chunk.estimated_tokens
        = segs.map (fun s => (s.map Turn.estimated_tokens).sum) := by
  intro segs
  induction segs with
  | nil => intro idx ov; simp [chunksFromSegs]
  | cons seg rest ih =>
    intro idx ov
    simp [chunksFromSegs, mkChunk, ih]

/-- The leading overlap of every chunk: the first chunk carries the initial
overlap `ov`, every later chunk carries the saved overlap of its predecessor
group. -/
theorem chunksFromSegs_map_overlapContent (overlap_turns : Nat) :
    ∀ (segs : List (List Turn)) (idx : Nat) (ov : List Turn), segs ≠ [] →
      (chunksFromSegs overlap_turns idx ov segs).map overlapContent
        = (ov :: segs.dropLast.map (overlapSel overlap_turns)).map turnsMessages := by
  intro segs
  induction segs with
  | nil => intro idx ov h; exact absurd rfl h
  | cons seg rest ih =>
    intro idx ov _
    match rest with
    | [] => simp [chunksFromSegs, mkChunk_overlapContent]
    | r :: rs =>
      have := ih (idx + 1) (overlapSel overlap_turns seg) (by simp)
      simp only [chunksFromSegs, List.map_cons, mkChunk_overlapContent,
        List.dropLast_cons₂] at this ⊢
      rw [this]

theorem chunksFromSegs_map_overlap_count (overlap_turns : Nat) :
    ∀ (segs : List (List Turn)) (idx : Nat) (ov : List Turn),
      (chunksFromSegs overlap_turns idx ov segs).map Chunk.overlap_count
        = ((chunksFromSegs overlap_turns idx ov segs).map overlapContent).map
            List.length := by
  intro segs
  induction segs with
  | nil => intro idx ov; simp [chunksFromSegs]
  | cons seg rest ih =>
    intro idx ov
    simp only [chunksFromSegs, List.map_cons, mkChunk_overlapContent]
    rw [ih]
    simp [mkChunk, turnsMessages, overlapContent, List.take_left]

/-- Every message of every chunk comes from one of the turns fed to the
builder, provided the initial overlap does. -/
theorem chunksFromSegs_messages_from_turns (overlap_turns : Nat)
    (allTurns : List Turn) :
    ∀ (segs : List (List Turn)) (idx : Nat) (ov : List Turn),
      (∀ t ∈ ov, t ∈ allTurns) →
      (∀ s ∈ segs, ∀ t ∈ s, t ∈ allTurns) →
      ∀ c ∈ chunksFromSegs overlap_turns idx ov segs,
        ∀ m ∈ c.messages, ∃ t ∈ allTurns, m ∈ t.messages := by
  intro segs
  induction segs with
  | nil => intro idx ov _ _ c hc; simp [chunksFromSegs] at hc
  | cons seg rest ih =>
    intro idx ov hov hsegs c hc m hm
    rcases List.mem_cons.mp hc with hc | hc
    · subst hc
      simp only [mkChunk, List.mem_append] at hm
      rcases hm with hm | hm
      · rcases List.mem_flatten.mp hm with ⟨ms, hms, hmm⟩
        rcases List.mem_map.mp hms with ⟨t, htov, rfl⟩
        exact ⟨t, hov t htov, hmm⟩
      · rcases List.mem_flatten.mp hm with ⟨ms, hms, hmm⟩
        rcases List.mem_map.mp hms with ⟨t, htseg, rfl⟩
        exact ⟨t, hsegs seg (by simp) t htseg, hmm⟩
    · refine ih (idx + 1) (overlapSel overlap_turns seg) ?_ ?_ c hc m hm
      · intro t ht
        have hsub : overlapSel overlap_turns seg ⊆ seg := by
          unfold overlapSel takeLast
          split
          · exact List.drop_subset _ _
          · intro x hx; simp at hx
        exact hsegs seg (by simp) t (hsub ht)
      · intro s hs t ht
        exact hsegs s (List.mem_cons_of_mem _ hs) t ht

theorem stamp_map_newContent (n : Nat) (cs : List Chunk) :
    (cs.map (stampTotal n)).map newContent = cs.map newContent := by
  simp only [List.map_map]
  rfl

theorem stamp_map_overlapContent (n : Nat) (cs : List Chunk) :
    (cs.map (stampTotal n)).map overlapContent = cs.map overlapContent := by
  simp only [List.map_map]
  rfl

theorem stamp_map_estimated_tokens (n : Nat) (cs : List Chunk) :
    (cs.map (stampTotal n)).map Chunk.estimated_tokens
      = cs.map Chunk.estimated_tokens := by
  simp only [List.map_map]
  rfl

theorem stamp_map_overlap_count (n : Nat) (cs : List Chunk) :
    (cs.map (stampTotal n)).map Chunk.overlap_count
      = cs.map Chunk.overlap_count := by
  simp only [List.map_map]
  rfl

/-- The single-chunk path: non-empty input at or under the threshold. -/
theorem chunk_messages_single (messages : List Message)
    (target_tokens overlap_turns : Nat) (hne : messages ≠ [])
    (hle : estimate_tokens (format_transcript messages) ≤ chunkThreshold target_tokens) :
    chunk_messages messages target_tokens overlap_turns
      = { chunks := [{ messages := messages, chunk_index := 0, total_chunks := 1,
                       overlap_count := 0,
                       estimated_tokens := estimate_tokens (format_transcript messages) }],
          total_tokens := estimate_tokens (format_transcript messages),
          total_messages := messages.length,
          was_chunked := false,
          chunk_config := some (target_tokens, overlap_turns) } := by
  rw [chunk_messages, if_neg hne]
  simp only [if_pos hle]

/-- `was_chunked` is set exactly on the chunking path: non-empty input, over
the threshold, with at least one turn. -/
theorem was_chunked_iff (messages : List Message) (target_tokens overlap_turns : Nat) :
    (chunk_messages messages target_tokens overlap_turns).was_chunked = true ↔
      (messages ≠ [] ∧
        estimate_tokens (format_transcript messages) > chunkThreshold target_tokens ∧
        group_into_turns messages ≠ []) := by
  constructor
  · intro h
    by_cases hne : messages = []
    · rw [chunk_messages, if_pos hne] at h
      simp at h
    · by_cases hle : estimate_tokens (format_transcript messages)
          ≤ chunkThreshold target_tokens
      · rw [chunk_messages, if_neg hne] at h
        simp only [if_pos hle] at h
        simp at h
      · by_cases ht : group_into_turns messages = []
        · rw [chunk_messages, if_neg hne] at h
          simp only [if_neg hle, if_pos ht] at h
          simp at h
        · exact ⟨hne, by omega, ht⟩
  · rintro ⟨hne, hgt, ht⟩
    rw [chunk_messages, if_neg hne]
    simp only [if_neg (by omega : ¬ estimate_tokens (format_transcript messages)
      ≤ chunkThreshold target_tokens), if_neg ht]

/-- On the chunking path the chunk list is the segment view, finalized with the
total chunk count. -/
theorem chunk_messages_chunks_eq (messages : List Message)
    (target_tokens overlap_turns : Nat)
    (h : (chunk_messages messages target_tokens overlap_turns).was_chunked = true) :
    (chunk_messages messages target_tokens overlap_turns).chunks
      = (chunksFromSegs overlap_turns 0 [] (chunkSegs messages target_tokens)).map
          (stampTotal (chunkSegs messages target_tokens).length) := by
  rcases (was_chunked_iff messages target_tokens overlap_turns).mp h with ⟨hne, hgt, hturns⟩
  rw [chunk_messages, if_neg hne]
  simp only [if_neg (by omega : ¬ estimate_tokens (format_transcript messages)
    ≤ chunkThreshold target_tokens), if_neg hturns]
  have hb := buildLoop_eq_chunksFromSegs target_tokens overlap_turns
    (group_into_turns messages) [] [] 0 []
  simp only [List.nil_append, List.length_nil] at hb
  simp only [hb, chunkSegs, stampTotal]
  rw [chunksFromSegs_length]
  rfl

theorem group_into_turns_aux_length :
    ∀ (messages : List Message) (cur : Option Turn),
      (group_into_turns_aux messages cur).length
        = countUsers messages + (if cur.isSome then 1 else 0) := by
  intro messages
  induction messages with
  | nil =>
    intro cur
    cases cur <;> simp [group_into_turns_aux, countUsers]
  | cons m rest ih =>
    intro cur
    cases hrole : m.role with
    | user =>
      cases cur with
      | none =>
        simp only [group_into_turns_aux, hrole, ih]
        simp [countUsers, hrole, List.countP_cons]
      | some t =>
        simp only [group_into_turns_aux, hrole, List.length_cons, ih]
        simp [countUsers, hrole, List.countP_cons]
    | assistant =>
      cases cur with
      | none =>
        simp only [group_into_turns_aux, hrole, ih]
        simp [countUsers, hrole, List.countP_cons]
      | some t =>
        simp only [group_into_turns_aux, hrole, ih]
        simp [countUsers, hrole, List.countP_cons]

/-- The number of turns equals the number of user messages. -/
theorem group_into_turns_length (messages : List Message) :
    (group_into_turns messages).length = countUsers messages := by
  simpa using group_into_turns_aux_length messages none

theorem group_into_turns_aux_wellTurn :
    ∀ (messages : List Message) (cur : Option Turn),
      (∀ t, cur = some t → WellTurn t) →
      ∀ t ∈ group_into_turns_aux messages cur, WellTurn t := by
  intro messages
  induction messages with
  | nil =>
    intro cur hcur t ht
    cases cur with
    | none => simp [group_into_turns_aux] at ht
    | some t0 =>
      simp [group_into_turns_aux] at ht
      exact ht ▸ hcur t0 rfl
  | cons m rest ih =>
    intro cur hcur t ht
    cases hrole : m.role with
    | user =>
      cases cur with
      | none =>
        rw [group_into_turns_aux, hrole] at ht
        refine ih _ ?_ t ht
        intro t' ht'
        rw [Option.some_inj] at ht'
        subst ht'
        exact ⟨hrole, by simp⟩
      | some t0 =>
        rw [group_into_turns_aux, hrole] at ht
        rcases List.mem_cons.mp ht with rfl | ht
        · exact hcur t rfl
        · refine ih _ ?_ t ht
          intro t' ht'
          rw [Option.some_inj] at ht'
          subst ht'
          exact ⟨hrole, by simp⟩
    | assistant =>
      cases cur with
      | none =>
        rw [group_into_turns_aux, hrole] at ht
        exact ih none (by simp) t ht
      | some t0 =>
        rw [group_into_turns_aux, hrole] at ht
        refine ih _ ?_ t ht
        intro t' ht'
        rw [Option.some_inj] at ht'
        subst ht'
        refine ⟨(hcur t0 rfl).1, ?_⟩
        rintro a ha
        simp at ha
        exact ha ▸ hrole

theorem getLast?_cons_of_ne_nil {α : Type _} (a : α) {l : List α} (h : l ≠ []) :
    (a :: l).getLast? = l.getLast? := by
  cases l with
  | nil => exact absurd rfl h
  | cons b bs => exact List.getLast?_cons_cons

/-- A trailing user message always surfaces as the final, still-open turn. -/
theorem group_into_turns_aux_getLast (u : Message) (hu : u.role = Role.user) :
    ∀ (messages : List Message) (cur : Option Turn),
      (group_into_turns_aux (messages ++ [u]) cur).getLast?
        = some { user_message := u, assistant_message := none,
                 estimated_tokens := estimate_message_tokens u } := by
  intro messages
  induction messages with
  | nil =>
    intro cur
    cases cur with
    | none => simp [group_into_turns_aux, hu]
    | some t => simp [group_into_turns_aux, hu]
  | cons m rest ih =>
    intro cur
    have hne : ∀ cur' : Option Turn, group_into_turns_aux (rest ++ [u]) cur' ≠ [] := by
      intro cur'
      have hlen := group_into_turns_aux_length (rest ++ [u]) cur'
      have : 0 < countUsers (rest ++ [u]) := by
        simp [countUsers, List.countP_append, List.countP_cons, hu]
      intro hnil
      rw [hnil] at hlen
      simp at hlen
      omega
    cases hrole : m.role with
    | user =>
      cases cur with
      | none =>
        rw [List.cons_append, group_into_turns_aux, hrole]
        exact ih _
      | some t =>
        rw [List.cons_append, group_into_turns_aux, hrole]
        rw [getLast?_cons_of_ne_nil _ (hne _)]
        exact ih _
    | assistant =>
      cases cur with
      | none =>
        rw [List.cons_append, group_into_turns_aux, hrole]
        exact ih _
      | some t =>
        rw [List.cons_append, group_into_turns_aux, hrole]
        exact ih _

/-- A leading assistant message (no open turn yet) is discarded outright. -/
theorem group_into_turns_cons_assistant (a : Message) (ha : a.role = Role.assistant)
    (messages : List Message) :
    group_into_turns (a :: messages) = group_into_turns messages := by
  rw [group_into_turns, group_into_turns, group_into_turns_aux, ha]

/-- With no user message at all, no turn is ever formed. -/
theorem group_into_turns_eq_nil (messages : List Message)
    (h : ∀ m ∈ messages, m.role ≠ Role.user) :
    group_into_turns messages = [] := by
  have hlen := group_into_turns_length messages
  have hcount : countUsers messages = 0 := by
    rw [countUsers, List.countP_eq_zero]
    intro m hm
    simpa using h m hm
  rw [hcount] at hlen
  exact List.length_eq_zero.mp hlen

/-- An assistant reply directly after a user message attaches to that turn. -/
theorem group_into_turns_pair (u a : Message) (hu : u.role = Role.user)
    (ha : a.role = Role.assistant) :
    group_into_turns [u, a]
      = [{ user_message := u, assistant_message := some a,
           estimated_tokens := estimate_message_tokens u + estimate_message_tokens a }] := by
  simp [group_into_turns, group_into_turns_aux, hu, ha]

theorem generateLoop_attempts_le (transport : Nat → Outcome)
    (timeout_s max_retries : Nat) :
    ∀ (rem attempt : Nat) (lastError : Option OllamaErr),
      (generateLoop transport timeout_s max_retries attempt rem lastError).attempts
        ≤ rem := by
  intro rem
  induction rem with
  | zero => intro attempt lastError; simp [generateLoop]
  | succ rem ih =>
    intro attempt lastError
    rw [generateLoop]
    cases classifyOutcome timeout_s (transport attempt) with
    | ok r => simp
    | fatal e => simp
    | retryable e =>
      by_cases h : attempt < max_retries
      · simp only [if_pos h]
        have := ih (attempt + 1) (some e)
        simp
        omega
      · simp [if_neg h]

theorem generateLoop_attempts_pos (transport : Nat → Outcome)
    (timeout_s max_retries : Nat) (rem attempt : Nat) (lastError : Option OllamaErr)
    (h : 0 < rem) :
    0 < (generateLoop transport timeout_s max_retries attempt rem lastError).attempts := by
  match rem, h with
  | rem + 1, _ =>
    rw [generateLoop]
    cases classifyOutcome timeout_s (transport attempt) with
    | ok r => simp
    | fatal e => simp
    | retryable e =>
      by_cases h2 : attempt < max_retries
      · simp [if_pos h2]
      · simp [if_neg h2]

/-- Sleeps are exactly `DEFAULT_RETRY_DELAY * n` for the 1-indexed attempt
numbers `n` of every attempt except the last one made. -/
theorem generateLoop_delays (transport : Nat → Outcome)
    (timeout_s max_retries : Nat) :
    ∀ (rem attempt : Nat) (lastError : Option OllamaErr),
      attempt + rem = max_retries + 1 →
      (generateLoop transport timeout_s max_retries attempt rem lastError).delays
        = (List.range
            ((generateLoop transport timeout_s max_retries attempt rem lastError).attempts
              - 1)).map
            (fun j => DEFAULT_RETRY_DELAY * (attempt + j + 1)) := by
  intro rem
  induction rem with
  | zero => intro attempt lastError _; simp [generateLoop]
  | succ rem ih =>
    intro attempt lastError hinv
    rw [generateLoop]
    cases classifyOutcome timeout_s (transport attempt) with
    | ok r => simp
    | fatal e => simp
    | retryable e =>
      by_cases h : attempt < max_retries
      · simp only [if_pos h]
        have hrem : 0 < rem := by omega
        have hpos := generateLoop_attempts_pos transport timeout_s max_retries
          rem (attempt + 1) (some e) hrem
        have hih := ih (attempt + 1) (some e) (by omega)
        obtain ⟨k, hk⟩ : ∃ k,
            (generateLoop transport timeout_s max_retries (attempt + 1) rem
              (some e)).attempts = k + 1 :=
          ⟨(generateLoop transport timeout_s max_retries (attempt + 1) rem
              (some e)).attempts - 1, by omega⟩
        show DEFAULT_RETRY_DELAY * (attempt + 1)
            :: (generateLoop transport timeout_s max_retries (attempt + 1) rem
                  (some e)).delays
          = (List.range
              ((generateLoop transport timeout_s max_retries (attempt + 1) rem
                  (some e)).attempts + 1 - 1)).map
              (fun j => DEFAULT_RETRY_DELAY * (attempt + j + 1))
        rw [hih, hk, Nat.add_sub_cancel, Nat.add_sub_cancel, List.range_succ_eq_map]
        simp only [List.map_cons, List.map_map]
        congr 1
        apply List.map_congr_left
        intro j _
        simp only [Function.comp]
        congr 1
        omega
      · simp [if_neg h]

theorem generateLoop_ok (transport : Nat → Outcome) (timeout_s max_retries : Nat)
    (attempt rem : Nat) (lastError : Option OllamaErr) (r : GenerateResponse)
    (h : classifyOutcome timeout_s (transport attempt) = AttemptClass.ok r) :
    generateLoop transport timeout_s max_retries attempt (rem + 1) lastError
      = { result := Except.ok r, attempts := 1, delays := [] } := by
  rw [generateLoop, h]

theorem generateLoop_fatal (transport : Nat → Outcome) (timeout_s max_retries : Nat)
    (attempt rem : Nat) (lastError : Option OllamaErr) (e : OllamaErr)
    (h : classifyOutcome timeout_s (transport attempt) = AttemptClass.fatal e) :
    generateLoop transport timeout_s max_retries attempt (rem + 1) lastError
      = { result := Except.error e, attempts := 1, delays := [] } := by
  rw [generateLoop, h]

theorem generateLoop_retry_step (transport : Nat → Outcome) (timeout_s max_retries : Nat)
    (attempt rem : Nat) (lastError : Option OllamaErr) (e : OllamaErr)
    (h : classifyOutcome timeout_s (transport attempt) = AttemptClass.retryable e)
    (hlt : attempt < max_retries) :
    generateLoop transport timeout_s max_retries attempt (rem + 1) lastError
      = { result := (generateLoop transport timeout_s max_retries (attempt + 1) rem
            (some e)).result,
          attempts := (generateLoop transport timeout_s max_retries (attempt + 1) rem
            (some e)).attempts + 1,
          delays := DEFAULT_RETRY_DELAY * (attempt + 1)
            :: (generateLoop transport timeout_s max_retries (attempt + 1) rem
                  (some e)).delays } := by
  rw [generateLoop, h]
  simp [if_pos hlt]

theorem generateLoop_retry_last (transport : Nat → Outcome) (timeout_s max_retries : Nat)
    (attempt rem : Nat) (lastError : Option OllamaErr) (e : OllamaErr)
    (h : classifyOutcome timeout_s (transport attempt) = AttemptClass.retryable e)
    (hge : ¬ attempt < max_retries) :
    generateLoop transport timeout_s max_retries attempt (rem + 1) lastError
      = { result := Except.error e, attempts := 1, delays := [] } := by
  rw [generateLoop, h]
  simp [if_neg hge]

/-- If the first `i` attempts are retryable failures, the loop reaches attempt
`i` and stops there with its verdict when that attempt succeeds or is
non-retryable. -/
theorem generateLoop_stops (transport : Nat → Outcome) (timeout_s max_retries : Nat) :
    ∀ (i rem attempt : Nat) (lastError : Option OllamaErr),
      attempt + rem = max_retries + 1 → i < rem →
      (∀ j, j < i → retryableOutcome timeout_s (transport (attempt + j))) →
      (∀ r, classifyOutcome timeout_s (transport (attempt + i)) = AttemptClass.ok r →
        (generateLoop transport timeout_s max_retries attempt rem lastError).result
            = Except.ok r ∧
          (generateLoop transport timeout_s max_retries attempt rem lastError).attempts
            = i + 1) ∧
      (∀ e, classifyOutcome timeout_s (transport (attempt + i)) = AttemptClass.fatal e →
        (generateLoop transport timeout_s max_retries attempt rem lastError).result
            = Except.error e ∧
          (generateLoop transport timeout_s max_retries attempt rem lastError).attempts
            = i + 1) := by
  intro i
  induction i with
  | zero =>
    intro rem attempt lastError hinv hlt _
    match rem, hlt with
    | rem + 1, _ =>
      constructor
      · intro r hr
        rw [Nat.add_zero] at hr
        rw [generateLoop_ok transport timeout_s max_retries attempt rem lastError r hr]
        exact ⟨rfl, rfl⟩
      · intro e he
        rw [Nat.add_zero] at he
        rw [generateLoop_fatal transport timeout_s max_retries attempt rem lastError e he]
        exact ⟨rfl, rfl⟩
  | succ i ih =>
    intro rem attempt lastError hinv hlt hretry
    match rem, hlt with
    | rem + 1, _ =>
      obtain ⟨e0, he0⟩ := hretry 0 (Nat.succ_pos i)
      rw [Nat.add_zero] at he0
      have hstep := generateLoop_retry_step transport timeout_s max_retries attempt rem
        lastError e0 he0 (by omega)
      have hretry' : ∀ j, j < i → retryableOutcome timeout_s (transport (attempt + 1 + j)) := by
        intro j hj
        have := hretry (j + 1) (by omega)
        rwa [show attempt + (j + 1) = attempt + 1 + j by omega] at this
      have hih := ih rem (attempt + 1) (some e0) (by omega) (by omega) hretry'
      rw [show attempt + (i + 1) = attempt + 1 + i by omega]
      constructor
      · intro r hr
        have := hih.1 r hr
        rw [hstep]
        exact ⟨this.1, by simp [this.2]⟩
      · intro e he
        have := hih.2 e he
        rw [hstep]
        exact ⟨this.1, by simp [this.2]⟩

/-- If every attempt up to `max_retries` fails retryably, the loop makes all
`max_retries + 1` attempts and surfaces the error of the last attempt. -/
theorem generateLoop_exhaust (transport : Nat → Outcome) (timeout_s max_retries : Nat) :
    ∀ (rem attempt : Nat) (lastError : Option OllamaErr),
      attempt + rem = max_retries + 1 → 0 < rem →
      (∀ j, attempt ≤ j → j ≤ max_retries → retryableOutcome timeout_s (transport j)) →
      ∀ e, classifyOutcome timeout_s (transport max_retries) = AttemptClass.retryable e →
        (generateLoop transport timeout_s max_retries attempt rem lastError).result
            = Except.error e ∧
          (generateLoop transport timeout_s max_retries attempt rem lastError).attempts
            = rem := by
  intro rem
  induction rem with
  | zero => intro attempt lastError _ h0; exact absurd h0 (by simp)
  | succ rem ih =>
    intro attempt lastError hinv _ hall e he
    cases Nat.eq_zero_or_pos rem with
    | inl h0 =>
      subst h0
      have hatt : attempt = max_retries := by omega
      rw [generateLoop_retry_last transport timeout_s max_retries attempt 0
        lastError e (by rw [hatt]; exact he) (by omega)]
      exact ⟨rfl, rfl⟩
    | inr hpos =>
      obtain ⟨e0, he0⟩ := hall attempt le_rfl (by omega)
      rw [generateLoop_retry_step transport timeout_s max_retries attempt rem
        lastError e0 he0 (by omega)]
      have hih := ih (attempt + 1) (some e0) (by omega) hpos
        (fun j hj hj2 => hall j (by omega) hj2) e he
      exact ⟨hih.1, by simp [hih.2]⟩

/-- The map phase fails with the error of its first failing chunk call. -/
theorem mapPhase_error (inferChunk : Chunk → Except String String) :
    ∀ (pre : List Chunk) (c : Chunk) (post : List Chunk) (e : String),
      (∀ c' ∈ pre, ∃ r, inferChunk c' = Except.ok r) →
      inferChunk c = Except.error e →
      mapPhase inferChunk (pre ++ c :: post) = Except.error e := by
  intro pre
  induction pre with
  | nil =>
    intro c post e _ hc
    simp only [List.nil_append, mapPhase, hc]
    rfl
  | cons p pre ih =>
    intro c post e hpre hc
    obtain ⟨r, hr⟩ := hpre p (by simp)
    have hrest := ih c post e (fun c' h => hpre c' (by simp [h])) hc
    simp only [List.cons_append, mapPhase, hr]
    show (do
      let rs ← mapPhase inferChunk (pre ++ c :: post)
      Except.ok (("=== Chunk " ++ toString (p.chunk_index + 1) ++ "/"
        ++ toString p.total_chunks ++ " ===\n\n" ++ r) :: rs) : Except String (List String))
      = Except.error e
    rw [hrest]
    rfl

theorem chunkSegs_ne_nil (messages : List Message) (target_tokens : Nat)
    (h : group_into_turns messages ≠ []) :
    chunkSegs messages target_tokens ≠ [] := by
  intro hnil
  have hfl := segLoop_flatten target_tokens (group_into_turns messages) [] 0
  rw [show segLoop target_tokens (group_into_turns messages) [] 0
    = chunkSegs messages target_tokens from rfl, hnil] at hfl
  simp at hfl
  exact h hfl

theorem turnsMessages_flatten (segs : List (List Turn)) :
    (segs.map turnsMessages).flatten = turnsMessages segs.flatten := by
  induction segs with
  | nil => simp [turnsMessages]
  | cons s rest ih => simp [turnsMessages, ih]

/-- C1, counterexample: the claim quantifies over *every* message list, but on
the empty list (whose formatted transcript estimates to 4 ≤ floor(0.8·6000)
tokens) `chunk_messages` short-circuits and returns zero chunks, not one. -/
theorem C1_counterexample :
    estimate_tokens (format_transcript ([] : List Message)) ≤ chunkThreshold 6000 ∧
      (chunk_messages [] 6000 2).chunks.length = 0 := by
  constructor
  · decide
  · decide

/-- C1 (amended to non-empty message lists): for every non-empty message list
whose formatted-transcript token estimate is at most floor(0.8·target_tokens),
`chunk_messages` returns exactly one chunk containing all the messages, with
`was_chunked = false`, `overlap_count = 0`, `chunk_index = 0` and
`total_chunks = 1`. -/
theorem C1_single_chunk (messages : List Message) (target_tokens overlap_turns : Nat)
    (hne : messages ≠ [])
    (hle : estimate_tokens (format_transcript messages) ≤ chunkThreshold target_tokens) :
    (chunk_messages messages target_tokens overlap_turns).chunks
        = [{ messages := messages, chunk_index := 0, total_chunks := 1,
             overlap_count := 0,
             estimated_tokens := estimate_tokens (format_transcript messages) }] ∧
      (chunk_messages messages target_tokens overlap_turns).was_chunked = false := by
  rw [chunk_messages_single messages target_tokens overlap_turns hne hle]
  exact ⟨rfl, rfl⟩

theorem C1_witness :
    (([msgU1, msgA1] : List Message) ≠ [] ∧
        estimate_tokens (format_transcript [msgU1, msgA1]) ≤ chunkThreshold 6000) ∧
      ((chunk_messages [msgU1, msgA1] 6000 2).chunks
          = [{ messages := [msgU1, msgA1], chunk_index := 0, total_chunks := 1,
               overlap_count := 0,
               estimated_tokens := estimate_tokens (format_transcript [msgU1, msgA1]) }] ∧
        (chunk_messages [msgU1, msgA1] 6000 2).was_chunked = false) :=
  ⟨⟨by decide, by decide⟩,
    C1_single_chunk [msgU1, msgA1] 6000 2 (by decide) (by decide)⟩

/-- C2, counterexample: on an assistant-only transcript over the threshold,
`should_chunk` answers true but `chunk_messages` finds no turns and returns
`was_chunked = false` — the two diverge. -/
theorem C2_counterexample :
    should_chunk [msgBigA] 10 = true ∧
      (chunk_messages [msgBigA] 10 2).was_chunked = false := by
  constructor
  · decide
  · decide

/-- C2 (amended with the proviso that the input is empty or has at least one
turn, i.e. at least one user message): `should_chunk(m, T)` returns true
exactly when `chunk_messages(m, T, k)` takes the chunking path and reports
`was_chunked = true`; both use the threshold floor(T·0.8) on the same
formatted-transcript token estimate. -/
theorem C2_should_chunk_agrees (messages : List Message)
    (target_tokens overlap_turns : Nat)
    (h : messages = [] ∨ group_into_turns messages ≠ []) :
    should_chunk messages target_tokens
      = (chunk_messages messages target_tokens overlap_turns).was_chunked := by
  by_cases hne : messages = []
  · subst hne
    rfl
  · rcases h with h | hturns
    · exact absurd h hne
    · by_cases hle : estimate_tokens (format_transcript messages)
          ≤ chunkThreshold target_tokens
      · rw [chunk_messages_single messages target_tokens overlap_turns hne hle,
          should_chunk, if_neg hne]
        exact decide_eq_false (by omega)
      · have hw := (was_chunked_iff messages target_tokens overlap_turns).mpr
          ⟨hne, by omega, hturns⟩
        rw [hw, should_chunk, if_neg hne]
        exact decide_eq_true (by omega)

theorem C2_witness :
    (([] : List Message) = [] ∨ group_into_turns ([] : List Message) ≠ []) ∧
      should_chunk [] 6000 = (chunk_messages [] 6000 2).was_chunked :=
  ⟨Or.inl rfl, C2_should_chunk_agrees [] 6000 2 (Or.inl rfl)⟩

/-- C9, counterexample: a non-empty, well-formed, assistant-only input over
the threshold yields an *empty* chunk list — the Chunker does not degrade to a
single chunk there. -/
theorem C9_counterexample :
    ([msgBigA] : List Message) ≠ [] ∧ (chunk_messages [msgBigA] 10 2).chunks = [] := by
  constructor
  · decide
  · decide

/-- C9 (amended): `chunk_messages` is total — modelled as a Lean function it
returns a `ChunkingResult` on every input — and returns a non-empty chunk list
for every non-empty input that is within the threshold or contains at least
one user message (equivalently, at least one turn). -/
theorem C9_nonempty_chunks (messages : List Message) (target_tokens overlap_turns : Nat)
    (hne : messages ≠ [])
    (h : estimate_tokens (format_transcript messages) ≤ chunkThreshold target_tokens
      ∨ group_into_turns messages ≠ []) :
    (chunk_messages messages target_tokens overlap_turns).chunks ≠ [] := by
  by_cases hle : estimate_tokens (format_transcript messages) ≤ chunkThreshold target_tokens
  · rw [chunk_messages_single messages target_tokens overlap_turns hne hle]
    simp
  · have hturns : group_into_turns messages ≠ [] := by
      rcases h with h | h
      · exact absurd h hle
      · exact h
    have hw := (was_chunked_iff messages target_tokens overlap_turns).mpr
      ⟨hne, by omega, hturns⟩
    rw [chunk_messages_chunks_eq messages target_tokens overlap_turns hw]
    have hsegs := chunkSegs_ne_nil messages target_tokens hturns
    intro hnil
    rw [List.map_eq_nil_iff] at hnil
    have := chunksFromSegs_length overlap_turns (chunkSegs messages target_tokens) 0 []
    rw [hnil] at this
    simp at this
    exact hsegs (List.length_eq_zero.mp this.symm)

theorem C9_witness :
    (([msgU1, msgA1] : List Message) ≠ [] ∧
        (estimate_tokens (format_transcript [msgU1, msgA1]) ≤ chunkThreshold 6000
          ∨ group_into_turns [msgU1, msgA1] ≠ [])) ∧
      (chunk_messages [msgU1, msgA1] 6000 2).chunks ≠ [] :=
  ⟨⟨by decide, Or.inl (by decide)⟩,
    C9_nonempty_chunks [msgU1, msgA1] 6000 2 (by decide) (Or.inl (by decide))⟩

/-- C3: on the chunking path the chunks' new (non-overlap) contents are the
images of a partition (`chunkSegs`) of `group_into_turns messages` into
consecutive non-empty groups — so no turn's two messages are ever split
between two chunks' new content — and any turn whose own estimate exceeds
`target_tokens` forms a group by itself, i.e. a chunk whose new content is
exactly that turn's messages. -/
theorem C3_turns_never_split (messages : List Message)
    (target_tokens overlap_turns : Nat)
    (h : (chunk_messages messages target_tokens overlap_turns).was_chunked = true) :
    (chunk_messages messages target_tokens overlap_turns).chunks.map newContent
        = (chunkSegs messages target_tokens).map turnsMessages ∧
      (chunkSegs messages target_tokens).flatten = group_into_turns messages ∧
      (∀ s ∈ chunkSegs messages target_tokens, s ≠ []) ∧
      (∀ s ∈ chunkSegs messages target_tokens, ∀ t ∈ s,
        t.estimated_tokens > target_tokens → s = [t]) := by
  refine ⟨?_, ?_, ?_, ?_⟩
  · rw [chunk_messages_chunks_eq messages target_tokens overlap_turns h,
      stamp_map_newContent, chunksFromSegs_map_newContent]
  · simpa using segLoop_flatten target_tokens (group_into_turns messages) [] 0
  · exact segLoop_ne_nil target_tokens (group_into_turns messages) [] 0
  · exact segLoop_oversized_singleton target_tokens (group_into_turns messages) [] 0
      (by simp) (by simp)

theorem C3_witness :
    (chunk_messages msgs4 0 2).was_chunked = true ∧
      ((chunk_messages msgs4 0 2).chunks.map newContent
          = (chunkSegs msgs4 0).map turnsMessages ∧
        (chunkSegs msgs4 0).flatten = group_into_turns msgs4 ∧
        (∀ s ∈ chunkSegs msgs4 0, s ≠ []) ∧
        (∀ s ∈ chunkSegs msgs4 0, ∀ t ∈ s, t.estimated_tokens > 0 → s = [t])) :=
  ⟨by decide, C3_turns_never_split msgs4 0 2 (by decide)⟩

/-- C4: for a `was_chunked = true` result, the first chunk has empty leading
overlap, and each chunk after the first begins with exactly the messages of
the last `overlap_turns` turns of its predecessor's slice of (new) turns —
empty when `overlap_turns = 0` — while every chunk's `overlap_count` is the
length of that leading overlap content. -/
theorem C4_overlap (messages : List Message) (target_tokens overlap_turns : Nat)
    (h : (chunk_messages messages target_tokens overlap_turns).was_chunked = true) :
    (chunk_messages messages target_tokens overlap_turns).chunks.map overlapContent
        = (([] : List Turn)
            :: (chunkSegs messages target_tokens).dropLast.map (overlapSel overlap_turns)).map
            turnsMessages ∧
      (chunk_messages messages target_tokens overlap_turns).chunks.map Chunk.overlap_count
        = ((chunk_messages messages target_tokens overlap_turns).chunks.map
            overlapContent).map List.length := by
  have hsegs : chunkSegs messages target_tokens ≠ [] :=
    chunkSegs_ne_nil messages target_tokens
      ((was_chunked_iff messages target_tokens overlap_turns).mp h).2.2
  constructor
  · rw [chunk_messages_chunks_eq messages target_tokens overlap_turns h,
      stamp_map_overlapContent,
      chunksFromSegs_map_overlapContent overlap_turns _ 0 [] hsegs]
  · rw [chunk_messages_chunks_eq messages target_tokens overlap_turns h,
      stamp_map_overlap_count, stamp_map_overlapContent,
      chunksFromSegs_map_overlap_count]

theorem C4_witness :
    (chunk_messages msgs4 0 2).was_chunked = true ∧
      ((chunk_messages msgs4 0 2).chunks.map overlapContent
          = (([] : List Turn) :: (chunkSegs msgs4 0).dropLast.map (overlapSel 2)).map
              turnsMessages ∧
        (chunk_messages msgs4 0 2).chunks.map Chunk.overlap_count
          = ((chunk_messages msgs4 0 2).chunks.map overlapContent).map List.length) :=
  ⟨by decide, C4_overlap msgs4 0 2 (by decide)⟩

/-- C5, counterexample: in the single-chunk `was_chunked = false` case the
chunk's `estimated_tokens` is the formatted-transcript estimate (12 here), not
the sum of the per-turn estimates of its turns (21 here) — the claim fails for
that case, which it explicitly includes. -/
theorem C5_counterexample :
    (chunk_messages [msgU1, msgA1] 6000 2).chunks.map Chunk.estimated_tokens = [12] ∧
      ((group_into_turns [msgU1, msgA1]).map Turn.estimated_tokens).sum = 21 := by
  constructor
  · decide
  · decide

/-- C5 (amended to the chunking path): for every chunk of a
`was_chunked = true` result, `estimated_tokens` is the sum of per-turn
estimates over that chunk's new turns only (overlap turns contribute
nothing); in the single-chunk `was_chunked = false` case it is instead the
formatted-transcript estimate of the whole input. -/
theorem C5_estimated_tokens (messages : List Message)
    (target_tokens overlap_turns : Nat) :
    ((chunk_messages messages target_tokens overlap_turns).was_chunked = true →
      (chunk_messages messages target_tokens overlap_turns).chunks.map
          Chunk.estimated_tokens
        = (chunkSegs messages target_tokens).map
            (fun s => (s.map Turn.estimated_tokens).sum)) ∧
      (messages ≠ [] →
        estimate_tokens (format_transcript messages) ≤ chunkThreshold target_tokens →
        (chunk_messages messages target_tokens overlap_turns).chunks.map
            Chunk.estimated_tokens
          = [estimate_tokens (format_transcript messages)]) := by
  constructor
  · intro h
    rw [chunk_messages_chunks_eq messages target_tokens overlap_turns h,
      stamp_map_estimated_tokens, chunksFromSegs_map_estimated_tokens]
  · intro hne hle
    rw [chunk_messages_single messages target_tokens overlap_turns hne hle]
    rfl

theorem C5_witness :
    (chunk_messages msgs4 0 2).was_chunked = true ∧
      (chunk_messages msgs4 0 2).chunks.map Chunk.estimated_tokens
        = (chunkSegs msgs4 0).map (fun s => (s.map Turn.estimated_tokens).sum) :=
  ⟨by decide, (C5_estimated_tokens msgs4 0 2).1 (by decide)⟩

/-- C10: when `chunk_messages` actually splits, concatenating the chunks' new
contents in order reproduces exactly the concatenated messages of
`group_into_turns messages`; moreover every message of every chunk (overlap
included) belongs to some turn — so a message belonging to no turn (an orphan
or displaced assistant message) appears in no chunk. -/
theorem C10_concat (messages : List Message) (target_tokens overlap_turns : Nat)
    (h : (chunk_messages messages target_tokens overlap_turns).was_chunked = true) :
    ((chunk_messages messages target_tokens overlap_turns).chunks.map newContent).flatten
        = ((group_into_turns messages).map Turn.messages).flatten ∧
      (∀ c ∈ (chunk_messages messages target_tokens overlap_turns).chunks,
        ∀ m ∈ c.messages, ∃ t ∈ group_into_turns messages, m ∈ t.messages) := by
  constructor
  · rw [chunk_messages_chunks_eq messages target_tokens overlap_turns h,
      stamp_map_newContent, chunksFromSegs_map_newContent, turnsMessages_flatten]
    have hfl : (chunkSegs messages target_tokens).flatten = group_into_turns messages := by
      simpa using segLoop_flatten target_tokens (group_into_turns messages) [] 0
    rw [hfl, turnsMessages]
  · intro c hc m hm
    rw [chunk_messages_chunks_eq messages target_tokens overlap_turns h] at hc
    rcases List.mem_map.mp hc with ⟨c0, hc0, rfl⟩
    have hmem : ∀ t0 ∈ chunkSegs messages target_tokens, ∀ t ∈ t0,
        t ∈ group_into_turns messages := by
      intro s hs t ht
      have hfl : (chunkSegs messages target_tokens).flatten
          = group_into_turns messages := by
        simpa using segLoop_flatten target_tokens (group_into_turns messages) [] 0
      rw [← hfl]
      exact List.mem_flatten.mpr ⟨s, hs, ht⟩
    exact chunksFromSegs_messages_from_turns overlap_turns (group_into_turns messages)
      (chunkSegs messages target_tokens) 0 [] (by simp) hmem c0 hc0 m hm

theorem C10_witness :
    (chunk_messages msgs4 0 2).was_chunked = true ∧
      (((chunk_messages msgs4 0 2).chunks.map newContent).flatten
          = ((group_into_turns msgs4).map Turn.messages).flatten ∧
        ∀ c ∈ (chunk_messages msgs4 0 2).chunks,
          ∀ m ∈ c.messages, ∃ t ∈ group_into_turns msgs4, m ∈ t.messages) :=
  ⟨by decide, C10_concat msgs4 0 2 (by decide)⟩

/-- C6: `group_into_turns` scans in order — empty input gives no turns; a
leading assistant message (no open turn) is discarded; with no user message at
all no turn is formed (so an assistant message with no preceding user message
appears in no turn); the number of turns always equals the number of user
messages (each user message starts exactly one turn, and on strictly
alternating input this is the user-message count), which also forces the final
open turn to be emitted; a trailing user message indeed surfaces as the final,
reply-less turn; an assistant message directly after a user message attaches
to that user's turn; and every turn holds a user message in its user slot and
an assistant message, if any, in its assistant slot. -/
theorem C6_group_into_turns_spec :
    group_into_turns [] = [] ∧
      (∀ (a : Message) (ms : List Message), a.role = Role.assistant →
        group_into_turns (a :: ms) = group_into_turns ms) ∧
      (∀ ms : List Message, (∀ m ∈ ms, m.role ≠ Role.user) →
        group_into_turns ms = []) ∧
      (∀ ms : List Message, (group_into_turns ms).length = countUsers ms) ∧
      (∀ (ms : List Message) (u : Message), u.role = Role.user →
        (group_into_turns (ms ++ [u])).getLast?
          = some { user_message := u, assistant_message := none,
                   estimated_tokens := estimate_message_tokens u }) ∧
      (∀ (u a : Message), u.role = Role.user → a.role = Role.assistant →
        group_into_turns [u, a]
          = [{ user_message := u, assistant_message := some a,
               estimated_tokens := estimate_message_tokens u
                 + estimate_message_tokens a }]) ∧
      (∀ ms : List Message, ∀ t ∈ group_into_turns ms, WellTurn t) :=
  ⟨rfl,
    fun a ms ha => group_into_turns_cons_assistant a ha ms,
    group_into_turns_eq_nil,
    group_into_turns_length,
    fun ms u hu => group_into_turns_aux_getLast u hu ms none,
    group_into_turns_pair,
    fun ms => group_into_turns_aux_wellTurn ms none (by simp)⟩

theorem C6_witness :
    (msgA1.role = Role.assistant ∧
        group_into_turns [msgA1, msgU1] = group_into_turns [msgU1]) ∧
      (msgU1.role = Role.user ∧ msgA1.role = Role.assistant ∧
        group_into_turns [msgU1, msgA1]
          = [{ user_message := msgU1, assistant_message := some msgA1,
               estimated_tokens := estimate_message_tokens msgU1
                 + estimate_message_tokens msgA1 }]) :=
  ⟨⟨rfl, C6_group_into_turns_spec.2.1 msgA1 [msgU1] rfl⟩,
    ⟨rfl, rfl, C6_group_into_turns_spec.2.2.2.2.2.1 msgU1 msgA1 rfl rfl⟩⟩

/-- C7: the generate call makes at most `max_retries + 1` attempts (so at most
4 with the default of 3 retries); if the first `i` attempts fail retryably
(connection failure, timeout, or HTTP 502/503/504 — the only retryable
conditions), a success at attempt `i` is returned and any other HTTP status at
attempt `i` raises immediately with that status and body, after exactly `i+1`
attempts; the sleeps performed are `DEFAULT_RETRY_DELAY * n` for the 1-indexed
attempt numbers `n = 1, 2, ...` of all attempts but the last (no delay after
the final attempt); and when every attempt fails retryably, all
`max_retries + 1` attempts are made and the last attempt's error is raised —
an `OllamaTimeoutError` when that attempt timed out, a generic `OllamaError`
otherwise. -/
theorem C7_retry_policy (transport : Nat → Outcome) (timeout_s max_retries : Nat) :
    (generate_sync transport timeout_s max_retries).attempts ≤ max_retries + 1 ∧
      (generate_sync transport timeout_s max_retries).delays
        = (List.range ((generate_sync transport timeout_s max_retries).attempts - 1)).map
            (fun j => DEFAULT_RETRY_DELAY * (j + 1)) ∧
      (∀ i, i ≤ max_retries → (∀ j, j < i → retryableOutcome timeout_s (transport j)) →
        (∀ r, transport i = Outcome.success r →
          (generate_sync transport timeout_s max_retries).result = Except.ok r ∧
            (generate_sync transport timeout_s max_retries).attempts = i + 1) ∧
        (∀ code body, transport i = Outcome.httpStatus code body →
          ¬ retryableStatusCode code →
          (generate_sync transport timeout_s max_retries).result
              = Except.error (OllamaErr.apiErr
                  ("Ollama API error: " ++ toString code ++ " - " ++ body)) ∧
            (generate_sync transport timeout_s max_retries).attempts = i + 1)) ∧
      ((∀ j, j ≤ max_retries → retryableOutcome timeout_s (transport j)) →
        (generate_sync transport timeout_s max_retries).attempts = max_retries + 1 ∧
          (∀ e, classifyOutcome timeout_s (transport max_retries)
              = AttemptClass.retryable e →
            (generate_sync transport timeout_s max_retries).result = Except.error e) ∧
          (transport max_retries = Outcome.timeout →
            (generate_sync transport timeout_s max_retries).result
              = Except.error (OllamaErr.timeoutErr
                  ("Ollama request timed out after " ++ toString timeout_s ++ "s")))) := by
  refine ⟨?_, ?_, ?_, ?_⟩
  · exact generateLoop_attempts_le transport timeout_s max_retries (max_retries + 1) 0 none
  · have := generateLoop_delays transport timeout_s max_retries (max_retries + 1) 0 none
      (by omega)
    simpa [generate_sync] using this
  · intro i hi hretry
    have hstops := generateLoop_stops transport timeout_s max_retries i (max_retries + 1)
      0 none (by omega) (by omega) (by simpa using hretry)
    constructor
    · intro r hr
      exact hstops.1 r (by simp [hr, classifyOutcome])
    · intro code body hr hnr
      exact hstops.2 _ (by simp [hr, classifyOutcome, if_neg hnr])
  · intro hall
    have hr0 := hall max_retries le_rfl
    obtain ⟨e0, he0⟩ := hr0
    have hex := generateLoop_exhaust transport timeout_s max_retries (max_retries + 1)
      0 none (by omega) (by omega) (fun j _ hj => hall j hj) e0 he0
    refine ⟨hex.2, ?_, ?_⟩
    · intro e he
      rw [he0] at he
      cases he
      exact hex.1
    · intro ht
      have : classifyOutcome timeout_s (transport max_retries)
          = AttemptClass.retryable (OllamaErr.timeoutErr
              ("Ollama request timed out after " ++ toString timeout_s ++ "s")) := by
        rw [ht]
        rfl
      rw [this] at he0
      cases he0
      exact hex.1

theorem C7_witness :
    ((0 : Nat) ≤ 3 ∧ transport404 0 = Outcome.httpStatus 404 "not found" ∧
        ¬ retryableStatusCode 404) ∧
      (generate_sync transport404 300 3).result
          = Except.error (OllamaErr.apiErr
              ("Ollama API error: " ++ toString 404 ++ " - " ++ "not found")) ∧
        (generate_sync transport404 300 3).attempts = 0 + 1 :=
  ⟨⟨by decide, rfl, by decide⟩,
    ((C7_retry_policy transport404 300 3).2.2.1 0 (by decide)
        (fun j hj => absurd hj (by omega))).2 404 "not found" rfl (by decide)⟩

/-- C8: any error raised during transcript acquisition, any map call, or the
reduce call surfaces as the body's error and aborts the job: the job record
moves to FAILED with exactly that error message, the persisted results are
untouched (no partial chunk outputs, no result record) and the job stays
unlinked to any result; the worker always returns normally, leaving the job in
a terminal state (COMPLETED or FAILED). -/
theorem C8_failure_boundary (st : StorageState) (result_id : String)
    (acquire : Except String (List Message))
    (chunk_tokens overlap_turns : Nat) (hasChunkPrompts : Bool)
    (inferChunk : Chunk → Except String String)
    (inferReduce : List String → Except String String)
    (inferSingle : List Message → Except String String) :
    (∀ e, analysisBody acquire chunk_tokens overlap_turns hasChunkPrompts
        inferChunk inferReduce inferSingle = Except.error e →
      (_run_analysis st result_id acquire chunk_tokens overlap_turns hasChunkPrompts
          inferChunk inferReduce inferSingle).job.status = JobStatus.failed ∧
        (_run_analysis st result_id acquire chunk_tokens overlap_turns hasChunkPrompts
          inferChunk inferReduce inferSingle).job.error_message = some e ∧
        (_run_analysis st result_id acquire chunk_tokens overlap_turns hasChunkPrompts
          inferChunk inferReduce inferSingle).results = st.results ∧
        (_run_analysis st result_id acquire chunk_tokens overlap_turns hasChunkPrompts
          inferChunk inferReduce inferSingle).job.result_id = st.job.result_id) ∧
      (∀ e, acquire = Except.error e →
        analysisBody acquire chunk_tokens overlap_turns hasChunkPrompts
          inferChunk inferReduce inferSingle = Except.error e) ∧
      (∀ messages e, acquire = Except.ok messages →
        (estimate_tokens (format_transcript messages) > chunkThreshold chunk_tokens
          ∧ hasChunkPrompts) →
        mapPhase inferChunk
            (chunk_messages messages chunk_tokens overlap_turns).chunks
          = Except.error e →
        analysisBody acquire chunk_tokens overlap_turns hasChunkPrompts
          inferChunk inferReduce inferSingle = Except.error e) ∧
      (∀ messages chunk_results e, acquire = Except.ok messages →
        (estimate_tokens (format_transcript messages) > chunkThreshold chunk_tokens
          ∧ hasChunkPrompts) →
        mapPhase inferChunk
            (chunk_messages messages chunk_tokens overlap_turns).chunks
          = Except.ok chunk_results →
        inferReduce chunk_results = Except.error e →
        analysisBody acquire chunk_tokens overlap_turns hasChunkPrompts
          inferChunk inferReduce inferSingle = Except.error e) ∧
      (∀ messages e, acquire = Except.ok messages →
        ¬ (estimate_tokens (format_transcript messages) > chunkThreshold chunk_tokens
          ∧ hasChunkPrompts) →
        inferSingle messages = Except.error e →
        analysisBody acquire chunk_tokens overlap_turns hasChunkPrompts
          inferChunk inferReduce inferSingle = Except.error e) ∧
      ((_run_analysis st result_id acquire chunk_tokens overlap_turns hasChunkPrompts
          inferChunk inferReduce inferSingle).job.status = JobStatus.completed ∨
        (_run_analysis st result_id acquire chunk_tokens overlap_turns hasChunkPrompts
          inferChunk inferReduce inferSingle).job.status = JobStatus.failed) := by
  refine ⟨?_, ?_, ?_, ?_, ?_, ?_⟩
  · intro e he
    rw [_run_analysis, he]
    exact ⟨rfl, rfl, rfl, rfl⟩
  · intro e he
    rw [analysisBody, he]
    rfl
  · intro messages e hacq hcond hmap
    rw [analysisBody, hacq]
    show (if estimate_tokens (format_transcript messages) > chunkThreshold chunk_tokens
        ∧ hasChunkPrompts then
        _run_chunked messages chunk_tokens overlap_turns inferChunk inferReduce
      else inferSingle messages) = Except.error e
    rw [if_pos hcond, _run_chunked, hmap]
    rfl
  · intro messages chunk_results e hacq hcond hmap hred
    rw [analysisBody, hacq]
    show (if estimate_tokens (format_transcript messages) > chunkThreshold chunk_tokens
        ∧ hasChunkPrompts then
        _run_chunked messages chunk_tokens overlap_turns inferChunk inferReduce
      else inferSingle messages) = Except.error e
    rw [if_pos hcond, _run_chunked, hmap]
    show inferReduce chunk_results = Except.error e
    exact hred
  · intro messages e hacq hcond hsingle
    rw [analysisBody, hacq]
    show (if estimate_tokens (format_transcript messages) > chunkThreshold chunk_tokens
        ∧ hasChunkPrompts then
        _run_chunked messages chunk_tokens overlap_turns inferChunk inferReduce
      else inferSingle messages) = Except.error e
    rw [if_neg hcond]
    exact hsingle
  · rw [_run_analysis]
    cases analysisBody acquire chunk_tokens overlap_turns hasChunkPrompts
        inferChunk inferReduce inferSingle with
    | ok result_text => exact Or.inl rfl
    | error e => exact Or.inr rfl

theorem C8_witness :
    analysisBody (Except.error "boom") 6000 2 true (fun _ => Except.ok "")
        (fun _ => Except.ok "") (fun _ => Except.ok "") = Except.error "boom" ∧
      ((_run_analysis st0 "rid" (Except.error "boom") 6000 2 true (fun _ => Except.ok "")
          (fun _ => Except.ok "") (fun _ => Except.ok "")).job.status
          = JobStatus.failed ∧
        (_run_analysis st0 "rid" (Except.error "boom") 6000 2 true (fun _ => Except.ok "")
          (fun _ => Except.ok "") (fun _ => Except.ok "")).job.error_message
          = some "boom" ∧
        (_run_analysis st0 "rid" (Except.error "boom") 6000 2 true (fun _ => Except.ok "")
          (fun _ => Except.ok "") (fun _ => Except.ok "")).results = st0.results ∧
        (_run_analysis st0 "rid" (Except.error "boom") 6000 2 true (fun _ => Except.ok "")
          (fun _ => Except.ok "") (fun _ => Except.ok "")).job.result_id
          = st0.job.result_id) :=
  ⟨rfl,
    (C8_failure_boundary st0 "rid" (Except.error "boom") 6000 2 true
        (fun _ => Except.ok "") (fun _ => Except.ok "") (fun _ => Except.ok "")).1
      "boom" rfl⟩

end TranscriptAnalyzer
